import Mathlib

/-!
Shallow embedding of the Augment plugin discovery and load engine
(packages/core: manifest.ts, scanner.ts, host.ts).

External collaborators (fs/promises, JSON.parse, dynamic import, AdmZip,
Date.now, os.tmpdir) are modelled as environment oracles; every function of
the repository itself (validateManifest, readManifest, PluginScanner.scan /
scanDirectories / scanZipFiles / extractZip, PluginHost.reload /
loadSinglePlugin / getAll / find) is transcribed faithfully over those
oracles.  console.warn events are recorded as structured diagnostics, and
the cache-busting token attached to each dynamic import is recorded
together with the entry-point path.
-/

namespace Augment

/-- JSON values as produced by JSON.parse. -/
inductive Json where
  | null : Json
  | bool (b : Bool) : Json
  | num (n : Int) : Json
  | str (s : String) : Json
  | arr (elems : List Json) : Json
  | obj (fields : List (String × Json)) : Json

/-- The JavaScript typeof operator on a parsed JSON value.  Note that
typeof yields "object" for null, arrays and plain objects alike. -/
def jsTypeof : Json → String
  | .null => "object"
  | .bool _ => "boolean"
  | .num _ => "number"
  | .str _ => "string"
  | .arr _ => "object"
  | .obj _ => "object"

/-- Property access v[k] on a parsed JSON value: defined (some) only for the
fields of a plain object; undefined (none) on every other value, matching
property access for the manifest field names used by the validator. -/
def getField : Json → String → Option Json
  | .obj fields, k => (fields.find? (fun p => p.1 = k)).map Prod.snd
  | _, _ => none

/-- The parsed manifest (interface PluginManifest in types.ts).  The meta
field keeps the raw JSON value that was found under the meta key. -/
structure PluginManifest where
  name : String
  version : String
  entryPoint : String
  meta : Option Json

/-- JavaScript String.prototype.trim: strip whitespace from both ends. -/
def jsTrim (s : String) : String :=
  ⟨((s.data.dropWhile Char.isWhitespace).reverse.dropWhile Char.isWhitespace).reverse⟩

/-- The check applied by validateManifest to each required field:
typeof field === 'string' and field.trim() !== ''. -/
def fieldNonEmptyString : Option Json → Option String
  | some (.str s) => if jsTrim s = "" then none else some s
  | _ => none

/-- The strict equality test data === null of the source's first check. -/
def isJsNull : Json → Bool
  | .null => true
  | _ => false

/-- validateManifest from manifest.ts, transcribed check for check.  Errors
are the ManifestValidationError messages thrown by the source. -/
def validateManifest (data : Json) : Except String PluginManifest :=
  if jsTypeof data != "object" || isJsNull data then
    .error ("Manifest must be a JSON object")
  else
    match fieldNonEmptyString (getField data ("name")) with
    | none => .error ("Manifest must contain a non-empty name field")
    | some name =>
      match fieldNonEmptyString (getField data ("version")) with
      | none => .error ("Manifest must contain a non-empty version field")
      | some version =>
        match fieldNonEmptyString (getField data ("entryPoint")) with
        | none => .error ("Manifest must contain a non-empty entryPoint field")
        | some entryPoint =>
          match getField data ("meta") with
          | none => .ok ⟨name, version, entryPoint, none⟩
          | some metaVal =>
            if jsTypeof metaVal ≠ "object" then
              .error ("Manifest meta field must be an object if provided")
            else
              .ok ⟨name, version, entryPoint, some metaVal⟩

/-- Result of fs.readFile on a path: missing file (ENOENT), another read
error, or the file content. -/
inductive ReadResult where
  | enoent : ReadResult
  | fail (msg : String) : ReadResult
  | ok (content : String) : ReadResult

/-- Oracles for the filesystem read and JSON.parse used by readManifest. -/
structure ManifestEnv where
  readFile : String → ReadResult
  jsonParse : String → Except String Json

/-- The manifest file name used throughout the engine. -/
def manifestFileName : String := "plugin.manifest.json"

/-- path.join, abstracted: the engine only ever feeds joined paths back into
the environment oracles, so separator normalization is irrelevant. -/
def joinPath (a b : String) : String := a ++ "/" ++ b

/-- readManifest from manifest.ts: read the plugin.manifest.json file of
the plugin directory, JSON.parse it, and validate the result; the three
failure shapes reproduce the ManifestValidationError messages of the
source (file not found, unreadable, invalid JSON) plus validation errors. -/
def readManifest (env : ManifestEnv) (pluginPath : String) : Except String PluginManifest :=
  let manifestPath := joinPath pluginPath manifestFileName
  match env.readFile manifestPath with
  | .enoent => .error ("Manifest file not found: " ++ manifestPath)
  | .fail msg => .error ("Failed to read manifest: " ++ msg)
  | .ok content =>
    match env.jsonParse content with
    | .error msg => .error ("Invalid JSON in manifest: " ++ msg)
    | .ok parsed => validateManifest parsed

/-- A Dirent as returned by fs.readdir with withFileTypes.  isDirectory and
isFile are the two predicates the scanner consults. -/
structure DirEntry where
  name : String
  isDirectory : Bool
  isFile : Bool

/-- A thrown Node error object: its optional errno code and its message. -/
structure JsError where
  code : Option String
  message : String

/-- Result of fs.readdir on a directory path. -/
inductive DirResult where
  | ok (entries : List DirEntry) : DirResult
  | fail (e : JsError) : DirResult

/-- Outcome of constructing AdmZip on an archive and running extractAllTo:
either some step threw, or the archive was fully extracted. -/
inductive ZipResult where
  | threw (msg : String) : ZipResult
  | extracted : ZipResult

/-- Oracles for the filesystem effects used by PluginScanner.  accessOk p
states that fs.access(p, R_OK) succeeds (for extraction targets: succeeds
after the extraction that precedes the access in program order);
mkdirResult gives the failure, if any, of fs.mkdir(p, recursive). -/
structure ScanEnv where
  readdir : String → DirResult
  accessOk : String → Bool
  mkdirResult : String → Option JsError
  zipExtract : String → ZipResult
  tmpdir : String

/-- An error escaping a scan: either the Error object newly constructed by
the scanner for a missing root (message "Plugin directory not found: ..."),
or the original error rethrown unchanged. -/
inductive ScanError where
  | rootNotFound (msg : String) : ScanError
  | raised (e : JsError) : ScanError

/-- A console.warn event of the engine, with its interpolated values. -/
inductive Diagnostic where
  | loadFailed (pluginPath : String) (message : String) : Diagnostic
  | validationFailed (name : String) (pluginPath : String) : Diagnostic
  | extractFailed (zipName : String) (message : String) : Diagnostic

/-- The shared extraction cache root: join(tmpdir(), 'augment-cache'). -/
def cacheDir (env : ScanEnv) : String := joinPath env.tmpdir ("augment-cache")

/-- Helper for jsReplaceFirst: replace the first occurrence of pat in the
character list, scanning left to right. -/
def replaceFirstAux (pat repl : List Char) : List Char → List Char
  | [] => []
  | c :: rest =>
    if (c :: rest).take pat.length == pat then repl ++ (c :: rest).drop pat.length
    else c :: replaceFirstAux pat repl rest

/-- JavaScript String.prototype.replace with a string pattern replaces only
the first occurrence; zipName.replace('.zip', '') in extractZip. -/
def jsReplaceFirst (s pat repl : String) : String :=
  if pat.data == [] then ⟨repl.data ++ s.data⟩
  else ⟨replaceFirstAux pat.data repl.data s.data⟩

/-- JavaScript String.prototype.endsWith. -/
def jsEndsWith (s pat : String) : Bool :=
  decide (pat.data.length ≤ s.data.length) &&
    s.data.drop (s.data.length - pat.data.length) == pat.data

/-- PluginScanner.scanDirectories: every immediate subdirectory of the root
whose plugin.manifest.json is readable; ENOENT on the root readdir becomes
the "Plugin directory not found" error, any other readdir error is
rethrown unchanged. -/
def scanDirectories (env : ScanEnv) (rootPath : String) : Except ScanError (List String) :=
  match env.readdir rootPath with
  | .fail e =>
    if e.code = some ("ENOENT") then
      .error (.rootNotFound ("Plugin directory not found: " ++ rootPath))
    else
      .error (.raised e)
  | .ok entries =>
    .ok (entries.filterMap (fun entry =>
      if entry.isDirectory then
        let dirPath := joinPath rootPath entry.name
        if env.accessOk (joinPath dirPath manifestFileName) then some dirPath else none
      else none))

/-- PluginScanner.extractZip: extract the archive into the cache directory
under the archive's base name and keep the path only when the extracted
root holds a readable manifest; every extraction failure is caught, warned
about, and turned into null.  Returns the optional extracted path together
with the warn events emitted. -/
def extractZip (env : ScanEnv) (zipPath zipName : String) : Option String × List Diagnostic :=
  let pluginName := jsReplaceFirst zipName (".zip") ""
  let extractPath := joinPath (cacheDir env) pluginName
  match env.zipExtract zipPath with
  | .threw msg => (none, [.extractFailed zipName msg])
  | .extracted =>
    if env.accessOk (joinPath extractPath manifestFileName) then
      (some extractPath, [])
    else
      (none, [])

/-- PluginScanner.scanZipFiles: readdir the root (same ENOENT handling as
scanDirectories, applied by the shared catch also to the mkdir of the
cache directory), ensure the cache directory exists, and collect the
non-null extractZip results of every immediate .zip file. -/
def scanZipFiles (env : ScanEnv) (rootPath : String) : Except ScanError (List String × List Diagnostic) :=
  match env.readdir rootPath with
  | .fail e =>
    if e.code = some ("ENOENT") then
      .error (.rootNotFound ("Plugin directory not found: " ++ rootPath))
    else
      .error (.raised e)
  | .ok entries =>
    match env.mkdirResult (cacheDir env) with
    | some e =>
      if e.code = some ("ENOENT") then
        .error (.rootNotFound ("Plugin directory not found: " ++ rootPath))
      else
        .error (.raised e)
    | none =>
      .ok (entries.foldl (fun acc entry =>
        if entry.isFile && jsEndsWith entry.name (".zip") then
          let zipPath := joinPath rootPath entry.name
          let r := extractZip env zipPath entry.name
          match r.1 with
          | some p => (acc.1 ++ [p], acc.2 ++ r.2)
          | none => (acc.1, acc.2 ++ r.2)
        else acc) ([], []))

/-- PluginScanner.scan: Promise.all of the two sub-scans, directory results
first; a rejection of either sub-scan rejects the whole scan (both consult
the same readdir oracle, so on a missing root both reject alike). -/
def scan (env : ScanEnv) (rootPath : String) : Except ScanError (List String × List Diagnostic) :=
  match scanDirectories env rootPath, scanZipFiles env rootPath with
  | .error e, _ => .error e
  | .ok _, .error e => .error e
  | .ok dirs, .ok zips => .ok (dirs ++ zips.1, zips.2)

/-- The two variant shapes of PluginHostOptions: folder-scan mode (option
field folder) or single-plugin mode (option field pluginPath). -/
inductive HostMode where
  | folder (rootPath : String) : HostMode
  | single (pluginPath : String) : HostMode

/-- PluginHostOptions: the mode variant plus the optional validator
predicate over the loaded plugin surface. -/
structure PluginHostOptions (T : Type) where
  mode : HostMode
  validator : Option (T → Bool)

/-- PluginHost.isFolderOptions: the 'folder' in options type guard. -/
def isFolderOptions {T : Type} (opts : PluginHostOptions T) : Bool :=
  match opts.mode with
  | .folder _ => true
  | .single _ => false

/-- A loaded entry-point module: its optional default export and the value
of the whole module namespace object. -/
structure ModuleVal (T : Type) where
  defaultExport : Option T
  moduleValue : T

/-- Result of a dynamic import of an entry point under a given
cache-busting token. -/
inductive ImportResult (T : Type) where
  | ok (m : ModuleVal T) : ImportResult T
  | fail (msg : String) : ImportResult T

/-- The full environment a PluginHost runs against: the manifest-reading
and scanning oracles, the dynamic-import oracle (keyed by entry-point path
and cache-busting token), and the process clock: the n-th call of
Date.now() in the process returns clock n (a real clock is
non-decreasing, and strictly increasing only across distinct
milliseconds). -/
structure HostEnv (T : Type) where
  fsEnv : ManifestEnv
  scanEnv : ScanEnv
  importModule : String → Nat → ImportResult T
  clock : Nat → Nat

/-- Internal wrapper for plugin state (interface PluginWrapper). -/
structure PluginWrapper (T : Type) where
  manifest : PluginManifest
  pluginPath : String
  plugin : Option T

/-- The registry: a JS Map in insertion order, as an association list. -/
abbrev Registry (T : Type) := List (String × PluginWrapper T)

/-- Map.prototype.set: update in place when the key is present (keeping
its position), append otherwise. -/
def mapSet {α : Type} : List (String × α) → String → α → List (String × α)
  | [], k, v => [(k, v)]
  | (k', v') :: rest, k, v =>
    if k' = k then (k, v) :: rest else (k', v') :: mapSet rest k v

/-- Map.prototype.get. -/
def mapGet {α : Type} : List (String × α) → String → Option α
  | [], _ => none
  | (k', v') :: rest, k => if k' = k then some v' else mapGet rest k

/-- Mutable state threaded through reload: the registry being built, the
console.warn events emitted so far, the number of Date.now() calls made so
far in the process, and every dynamic import issued (entry path paired
with its cache-busting token). -/
structure LoadState (T : Type) where
  plugins : Registry T
  warnings : List Diagnostic
  tick : Nat
  importCalls : List (String × Nat)

/-- PluginHost.loadSinglePlugin: read the manifest, join the entry point,
attach the Date.now() cache-busting token, import, take the default
export falling back to the whole module, run the optional validator, and
register under the manifest name; any thrown failure is caught and warned
about with the plugin path. -/
def loadSinglePlugin {T : Type} (opts : PluginHostOptions T) (env : HostEnv T)
    (st : LoadState T) (pluginPath : String) : LoadState T :=
  match readManifest env.fsEnv pluginPath with
  | .error msg =>
    { st with warnings := st.warnings ++ [.loadFailed pluginPath msg] }
  | .ok manifest =>
    let entryPointPath := joinPath pluginPath manifest.entryPoint
    let token := env.clock st.tick
    let st' : LoadState T :=
      { st with tick := st.tick + 1, importCalls := st.importCalls ++ [(entryPointPath, token)] }
    match env.importModule entryPointPath token with
    | .fail msg =>
      { st' with warnings := st'.warnings ++ [.loadFailed pluginPath msg] }
    | .ok m =>
      let pluginCode := m.defaultExport.getD m.moduleValue
      match opts.validator with
      | some v =>
        if v pluginCode then
          { st' with plugins := mapSet st'.plugins manifest.name ⟨manifest, pluginPath, some pluginCode⟩ }
        else
          { st' with warnings := st'.warnings ++ [.validationFailed manifest.name pluginPath] }
      | none =>
        { st' with plugins := mapSet st'.plugins manifest.name ⟨manifest, pluginPath, some pluginCode⟩ }

/-- Observable outcome of one reload() call, starting from tick0 Date.now()
calls already made in the process: the rebuilt registry (empty when the
scan threw, since the map is cleared first), the warn events, the error
propagated out of reload (scan failures only), whether a PluginScanner was
constructed and invoked, the paths handed to loadSinglePlugin, the process
tick afterwards, and the dynamic imports issued. -/
structure ReloadResult (T : Type) where
  plugins : Registry T
  warnings : List Diagnostic
  thrown : Option ScanError
  usedScanner : Bool
  attempted : List String
  tick : Nat
  importCalls : List (String × Nat)

/-- PluginHost.reload: clear the registry, then in folder mode scan the
configured root and load every discovered path in order, and in
single-plugin mode load exactly the configured path without constructing a
scanner. -/
def reload {T : Type} (opts : PluginHostOptions T) (env : HostEnv T) (tick0 : Nat) :
    ReloadResult T :=
  match opts.mode with
  | .folder rootPath =>
    match scan env.scanEnv rootPath with
    | .error e => ⟨[], [], some e, true, [], tick0, []⟩
    | .ok (paths, scanWarns) =>
      let st := paths.foldl (loadSinglePlugin opts env) ⟨[], scanWarns, tick0, []⟩
      ⟨st.plugins, st.warnings, none, true, paths, st.tick, st.importCalls⟩
  | .single pluginPath =>
    let st := loadSinglePlugin opts env ⟨[], [], tick0, []⟩ pluginPath
    ⟨st.plugins, st.warnings, none, false, [pluginPath], st.tick, st.importCalls⟩

/-- A successfully loaded plugin as returned by the query operations. -/
structure LoadedPlugin (T : Type) where
  manifest : PluginManifest
  plugin : T

/-- PluginHost.getAll: the wrappers with a defined plugin, each projected
to a fresh record of manifest and plugin. -/
def getAll {T : Type} (reg : Registry T) : List (LoadedPlugin T) :=
  (reg.map Prod.snd).filterMap (fun w => w.plugin.map (fun p => ⟨w.manifest, p⟩))

/-- PluginHost.find: direct key lookup, defined only when the wrapper
holds a plugin. -/
def find {T : Type} (reg : Registry T) (name : String) : Option (LoadedPlugin T) :=
  match mapGet reg name with
  | some w => w.plugin.map (fun p => ⟨w.manifest, p⟩)
  | none => none

/-- The registry effect of one loadSinglePlugin call under a given
cache-busting token: the key/wrapper pair registered on full success,
none when the manifest read, the import, or the validation failed. -/
def loadEffect {T : Type} (opts : PluginHostOptions T) (env : HostEnv T)
    (pluginPath : String) (token : Nat) : Option (String × PluginWrapper T) :=
  match readManifest env.fsEnv pluginPath with
  | .error _ => none
  | .ok manifest =>
    match env.importModule (joinPath pluginPath manifest.entryPoint) token with
    | .fail _ => none
    | .ok m =>
      let pluginCode := m.defaultExport.getD m.moduleValue
      match opts.validator with
      | some v =>
        if v pluginCode then some (manifest.name, ⟨manifest, pluginPath, some pluginCode⟩)
        else none
      | none => some (manifest.name, ⟨manifest, pluginPath, some pluginCode⟩)

/-- Map.set uncurried over a key/value pair. -/
def mapSetPair {α : Type} (m : List (String × α)) (kv : String × α) : List (String × α) :=
  mapSet m kv.1 kv.2

/-- The sequence of successful registrations performed by a folder-mode
reload over a path list, starting at a given process tick: one Date.now()
call (advancing the tick) happens exactly for each path whose manifest
reads successfully. -/
def successes {T : Type} (opts : PluginHostOptions T) (env : HostEnv T) :
    List String → Nat → List (String × PluginWrapper T)
  | [], _ => []
  | p :: ps, tick =>
    match readManifest env.fsEnv p with
    | .error _ => successes opts env ps tick
    | .ok _ => (loadEffect opts env p (env.clock tick)).toList ++ successes opts env ps (tick + 1)

/-- A per-artifact load that fails under every cache-busting token: the
manifest read fails, or for every token the import fails or the configured
validator rejects the loaded surface. -/
def loadFailsAllTokens {T : Type} (opts : PluginHostOptions T) (env : HostEnv T)
    (p : String) : Prop :=
  match readManifest env.fsEnv p with
  | .error _ => True
  | .ok m =>
    ∀ t, match env.importModule (joinPath p m.entryPoint) t with
      | .fail _ => True
      | .ok mv =>
        match opts.validator with
        | some v => v (mv.defaultExport.getD mv.moduleValue) = false
        | none => False

/-- A diagnostic that names the given artifact path. -/
def Diagnostic.mentionsPath : Diagnostic → String → Prop
  | .loadFailed q _, p => q = p
  | .validationFailed _ q, p => q = p
  | .extractFailed _ _, _ => False

/-- An entry satisfying the registry invariant: stored under its manifest
name, holding a loaded instance that the configured validator accepted. -/
def GoodEntry {T : Type} (opts : PluginHostOptions T) (e : String × PluginWrapper T) : Prop :=
  e.2.manifest.name = e.1 ∧
    ∃ c, e.2.plugin = some c ∧ ∀ v, opts.validator = some v → v c = true

/-- A registry with the live instances erased: the observable key,
manifest and artifact path of every entry, in registry order. -/
def eraseInst {T : Type} (r : List (String × PluginWrapper T)) :
    List (String × PluginManifest × String) :=
  r.map (fun e => (e.1, e.2.manifest, e.2.pluginPath))

/-- The verdict of the configured validator on a loaded module's surface
(true when no validator is configured). -/
def validatorVerdict {T : Type} (opts : PluginHostOptions T) (m : ModuleVal T) : Bool :=
  match opts.validator with
  | some v => v (m.defaultExport.getD m.moduleValue)
  | none => true

/-- No filesystem change between loads: for every entry point, imports
under any two cache-busting tokens either both fail or both yield module
instances on which the configured validator agrees. -/
def ImportStable {T : Type} (opts : PluginHostOptions T) (env : HostEnv T) : Prop :=
  ∀ p t t', match env.importModule p t, env.importModule p t' with
    | .ok m, .ok m' => validatorVerdict opts m = validatorVerdict opts m'
    | .fail _, .fail _ => True
    | _, _ => False

/-- Concrete manifest-reading oracles for witnesses: under root r, plugin
directory a has a well-formed manifest and plugin directory b has none. -/
def cFsEnv : ManifestEnv where
  readFile := fun path =>
    if path = "r/a/plugin.manifest.json" then ReadResult.ok ("A") else ReadResult.enoent
  jsonParse := fun s =>
    if s = "A" then
      .ok (Json.obj [("name", Json.str ("a")), ("version", Json.str ("1")),
        ("entryPoint", Json.str ("e.js"))])
    else .error ("unexpected token")

/-- Concrete scanner oracles for witnesses: root r holds plugin directories
a and b (both with an accessible manifest file) and no archives. -/
def cScanEnv : ScanEnv where
  readdir := fun path =>
    if path = "r" then DirResult.ok [⟨"a", true, false⟩, ⟨"b", true, false⟩]
    else DirResult.fail ⟨some ("ENOENT"), "ENOENT"⟩
  accessOk := fun path =>
    path == "r/a/plugin.manifest.json" || path == "r/b/plugin.manifest.json"
  mkdirResult := fun _ => none
  zipExtract := fun _ => ZipResult.extracted
  tmpdir := "tmp"

/-- Concrete host environment for witnesses: imports always succeed, with a
default export recording the cache-busting token; the process clock is the
identity (strictly advancing milliseconds). -/
def cHostEnv : HostEnv Nat where
  fsEnv := cFsEnv
  scanEnv := cScanEnv
  importModule := fun _ t => ImportResult.ok ⟨some t, 0⟩
  clock := fun n => n

/-- Folder-mode options over root r with an accept-all validator. -/
def cOpts : PluginHostOptions Nat := ⟨HostMode.folder ("r"), some (fun _ => true)⟩

/-- Single-path options targeting plugin directory a directly. -/
def cOptsSingle : PluginHostOptions Nat := ⟨HostMode.single ("r/a"), some (fun _ => true)⟩

/-- The registry entry produced for plugin a by cHostEnv at tick 0. -/
def cEntry : String × PluginWrapper Nat :=
  ("a", ⟨⟨"a", "1", "e.js", none⟩, "r/a", some 0⟩)

/-- Manifest oracles where plugin directories a and b both declare the
same manifest name dup, with versions 1 and 2 respectively. -/
def cDupFsEnv : ManifestEnv where
  readFile := fun path =>
    if path = "r/a/plugin.manifest.json" then ReadResult.ok ("A")
    else if path = "r/b/plugin.manifest.json" then ReadResult.ok ("B")
    else ReadResult.enoent
  jsonParse := fun s =>
    if s = "A" then
      .ok (Json.obj [("name", Json.str ("dup")), ("version", Json.str ("1")),
        ("entryPoint", Json.str ("e.js"))])
    else if s = "B" then
      .ok (Json.obj [("name", Json.str ("dup")), ("version", Json.str ("2")),
        ("entryPoint", Json.str ("e.js"))])
    else .error ("unexpected token")

/-- Host environment where two discovered plugin directories carry the
same manifest name. -/
def cDupEnv : HostEnv Nat where
  fsEnv := cDupFsEnv
  scanEnv := cScanEnv
  importModule := fun _ t => ImportResult.ok ⟨some t, 0⟩
  clock := fun n => n

/-- Folder-mode options without a validator, for the duplicate-name run. -/
def cOptsDup : PluginHostOptions Nat := ⟨HostMode.folder ("r"), none⟩

/-- A manifest JSON object with valid name, version and entryPoint and the
given optional meta value. -/
def mkManifestJson (metaVal : Option Json) : Json :=
  Json.obj ([("name", Json.str ("a")), ("version", Json.str ("1")),
    ("entryPoint", Json.str ("e.js"))] ++
    (match metaVal with
     | some m => [("meta", m)]
     | none => []))

/-- Manifest oracles whose four plugin directories parse to manifests with
valid required fields and varying meta shapes: an array under pa, a string
scalar under pb, an object under pc, and null under pd. -/
def cMetaFsEnv : ManifestEnv where
  readFile := fun path =>
    if path = "pa/plugin.manifest.json" then ReadResult.ok ("MA")
    else if path = "pb/plugin.manifest.json" then ReadResult.ok ("MB")
    else if path = "pc/plugin.manifest.json" then ReadResult.ok ("MC")
    else if path = "pd/plugin.manifest.json" then ReadResult.ok ("MD")
    else ReadResult.enoent
  jsonParse := fun s =>
    if s = "MA" then .ok (mkManifestJson (some (Json.arr [])))
    else if s = "MB" then .ok (mkManifestJson (some (Json.str ("scalar"))))
    else if s = "MC" then .ok (mkManifestJson (some (Json.obj [])))
    else if s = "MD" then .ok (mkManifestJson (some Json.null))
    else .error ("unexpected token")

/-- Scanner oracles for the archive witnesses: root z holds a corrupt
archive bad.zip (extraction throws) and an archive noman.zip that extracts
but contains no manifest at its root. -/
def cZipScanEnv : ScanEnv where
  readdir := fun path =>
    if path = "z" then
      DirResult.ok [⟨"bad.zip", false, true⟩, ⟨"noman.zip", false, true⟩]
    else DirResult.fail ⟨some ("ENOENT"), "ENOENT"⟩
  accessOk := fun _ => false
  mkdirResult := fun _ => none
  zipExtract := fun p => if p = "z/bad.zip" then ZipResult.threw ("corrupt") else ZipResult.extracted
  tmpdir := "tmp"

/-- Host environment whose process clock is frozen at 5: consecutive
Date.now() calls fall in the same millisecond and return the same reading,
a behavior every real (merely non-decreasing) clock admits. -/
def cFrozenEnv : HostEnv Nat where
  fsEnv := cFsEnv
  scanEnv := cScanEnv
  importModule := fun _ t => ImportResult.ok ⟨some t, 0⟩
  clock := fun _ => 5

theorem mapGet_mapSet {α : Type} (m : List (String × α)) (k k' : String) (v : α) :
    mapGet (mapSet m k v) k' = if k = k' then some v else mapGet m k' := by
  induction m with
  | nil => simp [mapSet, mapGet]
  | cons a rest ih =>
    obtain ⟨ka, va⟩ := a
    by_cases hak : ka = k
    · subst hak
      by_cases hk' : ka = k'
      · subst hk'
        simp [mapSet, mapGet]
      · simp [mapSet, mapGet, hk']
    · by_cases hk' : ka = k'
      · have hkk' : ¬ k = k' := fun h => hak (hk'.trans h.symm)
        have hk'k : ¬ k' = k := fun h => hak (hk'.trans h)
        simp [mapSet, if_neg hak, mapGet, hk', hkk', hk'k]
      · simp [mapSet, if_neg hak, mapGet, hk', ih]

theorem mem_mapSet {α : Type} {m : List (String × α)} {k : String} {v : α}
    {e : String × α} (h : e ∈ mapSet m k v) : e = (k, v) ∨ e ∈ m := by
  induction m with
  | nil => simpa [mapSet] using h
  | cons a rest ih =>
    obtain ⟨ka, va⟩ := a
    simp only [mapSet] at h
    split at h
    · rcases List.mem_cons.mp h with h' | h'
      · exact Or.inl h'
      · exact Or.inr (List.mem_cons_of_mem _ h')
    · rcases List.mem_cons.mp h with h' | h'
      · exact Or.inr (h' ▸ List.mem_cons_self _ _)
      · rcases ih h' with h2 | h2
        · exact Or.inl h2
        · exact Or.inr (List.mem_cons_of_mem _ h2)

theorem keys_mapSet {α : Type} (m : List (String × α)) (k : String) (v : α) :
    (mapSet m k v).map Prod.fst =
      if (mapGet m k).isSome then m.map Prod.fst else m.map Prod.fst ++ [k] := by
  induction m with
  | nil => simp [mapSet, mapGet]
  | cons a rest ih =>
    obtain ⟨ka, va⟩ := a
    by_cases hak : ka = k
    · subst hak
      simp [mapSet, mapGet]
    · simp only [mapSet, if_neg hak, mapGet, List.map_cons, ih]
      by_cases hs : (mapGet rest k).isSome
      · simp [hs]
      · simp [hs]

theorem mapGet_eq_none_iff {α : Type} (m : List (String × α)) (k : String) :
    mapGet m k = none ↔ k ∉ m.map Prod.fst := by
  induction m with
  | nil => simp [mapGet]
  | cons a rest ih =>
    obtain ⟨ka, va⟩ := a
    by_cases hak : ka = k
    · subst hak
      simp [mapGet]
    · have hka : ¬ k = ka := fun h => hak h.symm
      simp [mapGet, if_neg hak, ih, hka]

/-- The import calls (entry path and token) a single load issues: exactly
one, at the current tick, when the manifest reads successfully. -/
def loadCallsDelta {T : Type} (env : HostEnv T) (p : String) (tick : Nat) :
    List (String × Nat) :=
  match readManifest env.fsEnv p with
  | .error _ => []
  | .ok m => [(joinPath p m.entryPoint, env.clock tick)]

theorem loadSinglePlugin_plugins {T : Type} (opts : PluginHostOptions T) (env : HostEnv T)
    (st : LoadState T) (p : String) :
    (loadSinglePlugin opts env st p).plugins =
      match loadEffect opts env p (env.clock st.tick) with
      | some kv => mapSetPair st.plugins kv
      | none => st.plugins := by
  cases hm : readManifest env.fsEnv p with
  | error msg => simp [loadSinglePlugin, loadEffect, hm]
  | ok manifest =>
    cases him : env.importModule (joinPath p manifest.entryPoint) (env.clock st.tick) with
    | fail msg => simp [loadSinglePlugin, loadEffect, hm, him]
    | ok m =>
      cases hv : opts.validator with
      | none => simp [loadSinglePlugin, loadEffect, mapSetPair, hm, him, hv]
      | some v =>
        by_cases hvc : v (m.defaultExport.getD m.moduleValue) <;>
          simp [loadSinglePlugin, loadEffect, mapSetPair, hm, him, hv, hvc]

theorem loadSinglePlugin_tick {T : Type} (opts : PluginHostOptions T) (env : HostEnv T)
    (st : LoadState T) (p : String) :
    (loadSinglePlugin opts env st p).tick = st.tick + (loadCallsDelta env p st.tick).length := by
  cases hm : readManifest env.fsEnv p with
  | error msg => simp [loadSinglePlugin, loadCallsDelta, hm]
  | ok manifest =>
    cases him : env.importModule (joinPath p manifest.entryPoint) (env.clock st.tick) with
    | fail msg => simp [loadSinglePlugin, loadCallsDelta, hm, him]
    | ok m =>
      cases hv : opts.validator with
      | none => simp [loadSinglePlugin, loadCallsDelta, hm, him, hv]
      | some v =>
        by_cases hvc : v (m.defaultExport.getD m.moduleValue) <;>
          simp [loadSinglePlugin, loadCallsDelta, hm, him, hv, hvc]

theorem loadSinglePlugin_importCalls {T : Type} (opts : PluginHostOptions T) (env : HostEnv T)
    (st : LoadState T) (p : String) :
    (loadSinglePlugin opts env st p).importCalls = st.importCalls ++ loadCallsDelta env p st.tick := by
  cases hm : readManifest env.fsEnv p with
  | error msg => simp [loadSinglePlugin, loadCallsDelta, hm]
  | ok manifest =>
    cases him : env.importModule (joinPath p manifest.entryPoint) (env.clock st.tick) with
    | fail msg => simp [loadSinglePlugin, loadCallsDelta, hm, him]
    | ok m =>
      cases hv : opts.validator with
      | none => simp [loadSinglePlugin, loadCallsDelta, hm, him, hv]
      | some v =>
        by_cases hvc : v (m.defaultExport.getD m.moduleValue) <;>
          simp [loadSinglePlugin, loadCallsDelta, hm, him, hv, hvc]

theorem loadSinglePlugin_warnings {T : Type} (opts : PluginHostOptions T) (env : HostEnv T)
    (st : LoadState T) (p : String) :
    ∃ extra, (loadSinglePlugin opts env st p).warnings = st.warnings ++ extra := by
  cases hm : readManifest env.fsEnv p with
  | error msg => exact ⟨[Diagnostic.loadFailed p msg], by simp [loadSinglePlugin, hm]⟩
  | ok manifest =>
    cases him : env.importModule (joinPath p manifest.entryPoint) (env.clock st.tick) with
    | fail msg => exact ⟨[Diagnostic.loadFailed p msg], by simp [loadSinglePlugin, hm, him]⟩
    | ok m =>
      cases hv : opts.validator with
      | none => exact ⟨[], by simp [loadSinglePlugin, hm, him, hv]⟩
      | some v =>
        by_cases hvc : v (m.defaultExport.getD m.moduleValue)
        · exact ⟨[], by simp [loadSinglePlugin, hm, him, hv, hvc]⟩
        · exact ⟨[Diagnostic.validationFailed manifest.name p],
            by simp [loadSinglePlugin, hm, him, hv, hvc]⟩

theorem loadSinglePlugin_warn_of_fail {T : Type} (opts : PluginHostOptions T) (env : HostEnv T)
    (st : LoadState T) (p : String) (hfail : loadFailsAllTokens opts env p) :
    ∃ d, (loadSinglePlugin opts env st p).warnings = st.warnings ++ [d] ∧
      Diagnostic.mentionsPath d p := by
  unfold loadFailsAllTokens at hfail
  cases hm : readManifest env.fsEnv p with
  | error msg =>
    refine ⟨Diagnostic.loadFailed p msg, ?_, rfl⟩
    simp [loadSinglePlugin, hm]
  | ok manifest =>
    simp only [hm] at hfail
    have hfail' := hfail (env.clock st.tick)
    cases him : env.importModule (joinPath p manifest.entryPoint) (env.clock st.tick) with
    | fail msg =>
      refine ⟨Diagnostic.loadFailed p msg, ?_, rfl⟩
      simp [loadSinglePlugin, hm, him]
    | ok m =>
      simp only [him] at hfail'
      cases hv : opts.validator with
      | none => simp only [hv] at hfail'
      | some v =>
        simp only [hv] at hfail'
        refine ⟨Diagnostic.validationFailed manifest.name p, ?_, rfl⟩
        simp [loadSinglePlugin, hm, him, hv, hfail']

theorem foldl_load_plugins {T : Type} (opts : PluginHostOptions T) (env : HostEnv T)
    (paths : List String) (st : LoadState T) :
    (paths.foldl (loadSinglePlugin opts env) st).plugins =
      (successes opts env paths st.tick).foldl mapSetPair st.plugins := by
  induction paths generalizing st with
  | nil => simp [successes]
  | cons p ps ih =>
    rw [List.foldl_cons, ih]
    have hp := loadSinglePlugin_plugins opts env st p
    have ht := loadSinglePlugin_tick opts env st p
    cases hm : readManifest env.fsEnv p with
    | error msg =>
      simp only [loadCallsDelta, hm, List.length_nil, Nat.add_zero] at ht
      simp only [loadEffect, hm] at hp
      simp [successes, hm, hp, ht]
    | ok manifest =>
      simp only [loadCallsDelta, hm, List.length_cons, List.length_nil] at ht
      rw [hp, ht]
      simp only [successes, hm]
      rw [List.foldl_append]
      cases he : loadEffect opts env p (env.clock st.tick) <;> simp [he]

theorem mem_foldl_mapSetPair {α : Type} {S init : List (String × α)} {e : String × α}
    (h : e ∈ S.foldl mapSetPair init) : e ∈ init ∨ e ∈ S := by
  induction S generalizing init with
  | nil => exact Or.inl h
  | cons a S' ih =>
    rw [List.foldl_cons] at h
    rcases ih h with h' | h'
    · rcases mem_mapSet h' with h2 | h2
      · exact Or.inr (h2 ▸ List.mem_cons_self _ _)
      · exact Or.inl h2
    · exact Or.inr (List.mem_cons_of_mem _ h')

theorem mem_successes {T : Type} {opts : PluginHostOptions T} {env : HostEnv T}
    {paths : List String} {t : Nat} {e : String × PluginWrapper T}
    (h : e ∈ successes opts env paths t) :
    ∃ p ∈ paths, ∃ tok, loadEffect opts env p tok = some e := by
  induction paths generalizing t with
  | nil => simp [successes] at h
  | cons p ps ih =>
    rw [successes] at h
    cases hm : readManifest env.fsEnv p with
    | error msg =>
      rw [hm] at h
      obtain ⟨p', hp', htok⟩ := ih h
      exact ⟨p', List.mem_cons_of_mem _ hp', htok⟩
    | ok manifest =>
      rw [hm] at h
      rcases List.mem_append.mp h with h' | h'
      · refine ⟨p, List.mem_cons_self _ _, env.clock t, ?_⟩
        cases he : loadEffect opts env p (env.clock t) with
        | none => rw [he] at h'; simp at h'
        | some kv => rw [he] at h'; simp at h'; rw [h']
      · obtain ⟨p', hp', htok⟩ := ih h'
        exact ⟨p', List.mem_cons_of_mem _ hp', htok⟩

theorem loadEffect_good {T : Type} {opts : PluginHostOptions T} {env : HostEnv T}
    {p : String} {tok : Nat} {e : String × PluginWrapper T}
    (h : loadEffect opts env p tok = some e) :
    e.2.manifest.name = e.1 ∧ e.2.pluginPath = p ∧
      ∃ c, e.2.plugin = some c ∧ ∀ v, opts.validator = some v → v c = true := by
  unfold loadEffect at h
  cases hm : readManifest env.fsEnv p with
  | error msg => simp [hm] at h
  | ok manifest =>
    simp only [hm] at h
    cases him : env.importModule (joinPath p manifest.entryPoint) tok with
    | fail msg => simp [him] at h
    | ok m =>
      simp only [him] at h
      cases hv : opts.validator with
      | none =>
        simp only [hv, Option.some.injEq] at h
        subst h
        exact ⟨rfl, rfl, _, rfl, fun v hv' => Option.noConfusion hv'⟩
      | some v =>
        simp only [hv] at h
        by_cases hvc : v (m.defaultExport.getD m.moduleValue)
        · rw [if_pos hvc] at h
          simp only [Option.some.injEq] at h
          subst h
          refine ⟨rfl, rfl, _, rfl, fun v' hv' => ?_⟩
          injection hv' with h2
          exact h2 ▸ hvc
        · rw [if_neg hvc] at h
          exact absurd h (by simp)

theorem loadEffect_none_of_fail {T : Type} {opts : PluginHostOptions T} {env : HostEnv T}
    {p : String} (hfail : loadFailsAllTokens opts env p) (tok : Nat) :
    loadEffect opts env p tok = none := by
  unfold loadFailsAllTokens at hfail
  unfold loadEffect
  cases hm : readManifest env.fsEnv p with
  | error msg => simp [hm]
  | ok manifest =>
    simp only [hm] at hfail ⊢
    have hfail' := hfail tok
    cases him : env.importModule (joinPath p manifest.entryPoint) tok with
    | fail msg => simp [him]
    | ok m =>
      simp only [him] at hfail' ⊢
      cases hv : opts.validator with
      | none => simp only [hv] at hfail'
      | some v =>
        simp only [hv] at hfail' ⊢
        simp [hfail']

theorem foldl_warnings_mono {T : Type} (opts : PluginHostOptions T) (env : HostEnv T)
    (paths : List String) (st : LoadState T) :
    ∃ extra, (paths.foldl (loadSinglePlugin opts env) st).warnings = st.warnings ++ extra := by
  induction paths generalizing st with
  | nil => exact ⟨[], by simp⟩
  | cons p ps ih =>
    rw [List.foldl_cons]
    obtain ⟨e1, he1⟩ := loadSinglePlugin_warnings opts env st p
    obtain ⟨e2, he2⟩ := ih (loadSinglePlugin opts env st p)
    exact ⟨e1 ++ e2, by rw [he2, he1, List.append_assoc]⟩

theorem foldl_warn_of_fail {T : Type} (opts : PluginHostOptions T) (env : HostEnv T)
    (paths : List String) (st : LoadState T) (p : String) (hp : p ∈ paths)
    (hfail : loadFailsAllTokens opts env p) :
    ∃ d ∈ (paths.foldl (loadSinglePlugin opts env) st).warnings, Diagnostic.mentionsPath d p := by
  induction paths generalizing st with
  | nil => cases hp
  | cons q ps ih =>
    rw [List.foldl_cons]
    rcases List.mem_cons.mp hp with h | h
    · subst h
      obtain ⟨d, hd, hdp⟩ := loadSinglePlugin_warn_of_fail opts env st p hfail
      obtain ⟨extra, hextra⟩ := foldl_warnings_mono opts env ps (loadSinglePlugin opts env st p)
      refine ⟨d, ?_, hdp⟩
      rw [hextra, hd]
      exact List.mem_append_left _ (List.mem_append_right _ (List.mem_singleton.mpr rfl))
    · exact ih (loadSinglePlugin opts env st q) h

theorem mem_reload_plugins {T : Type} {opts : PluginHostOptions T} {env : HostEnv T}
    {tick0 : Nat} {e : String × PluginWrapper T}
    (h : e ∈ (reload opts env tick0).plugins) :
    ∃ p ∈ (reload opts env tick0).attempted, ∃ tok, loadEffect opts env p tok = some e := by
  cases hmode : opts.mode with
  | folder root =>
    simp only [reload, hmode] at h ⊢
    cases hscan : scan env.scanEnv root with
    | error err => simp [hscan] at h
    | ok pair =>
      obtain ⟨paths, scanWarns⟩ := pair
      simp only [hscan] at h ⊢
      rw [foldl_load_plugins] at h
      rcases mem_foldl_mapSetPair h with h' | h'
      · simp at h'
      · obtain ⟨p, hpmem, tok, htok⟩ := mem_successes h'
        exact ⟨p, hpmem, tok, htok⟩
  | single p =>
    simp only [reload, hmode] at h ⊢
    rw [loadSinglePlugin_plugins] at h
    cases he : loadEffect opts env p (env.clock tick0) with
    | none => rw [he] at h; simp at h
    | some kv =>
      rw [he] at h
      simp only [mapSetPair, mapSet] at h
      rcases List.mem_singleton.mp h with h'
      exact ⟨p, List.mem_singleton.mpr rfl, env.clock tick0, by rw [he, h']⟩

/-- Claim C1: after every reload(), in both folder and single-path mode,
every entry of the registry is keyed by its manifest's name and holds a
loaded instance for which the configured validator, when one is present,
returned true. -/
theorem C1_registry_invariant {T : Type} (opts : PluginHostOptions T) (env : HostEnv T)
    (tick0 : Nat) (e : String × PluginWrapper T)
    (he : e ∈ (reload opts env tick0).plugins) :
    e.2.manifest.name = e.1 ∧
      ∃ c, e.2.plugin = some c ∧ ∀ v, opts.validator = some v → v c = true := by
  obtain ⟨p, _, tok, hp⟩ := mem_reload_plugins he
  obtain ⟨h1, _, h3⟩ := loadEffect_good hp
  exact ⟨h1, h3⟩

/-- Witness for C1 on the concrete environment: the entry loaded for plugin
a satisfies the registry invariant. -/
theorem C1_registry_invariant_witness :
    cEntry.2.manifest.name = cEntry.1 ∧
      ∃ c, cEntry.2.plugin = some c ∧ ∀ v, cOpts.validator = some v → v c = true :=
  C1_registry_invariant cOpts cHostEnv 0 cEntry (by
    have h : (reload cOpts cHostEnv 0).plugins = [cEntry] := by rfl
    rw [h]
    exact List.mem_singleton.mpr rfl)

/-- Claim C2: in folder mode, once the scan succeeds, reload() throws
nothing, attempts every discovered artifact in order, and any artifact
whose load fails under every token (invalid manifest, failing import, or
validator rejection) gets a diagnostic naming its path while contributing
no entry to the resulting registry. -/
theorem C2_failure_isolation {T : Type} (opts : PluginHostOptions T) (env : HostEnv T)
    (tick0 : Nat) (root : String) (paths : List String) (scanWarns : List Diagnostic)
    (hmode : opts.mode = .folder root)
    (hscan : scan env.scanEnv root = .ok (paths, scanWarns)) :
    (reload opts env tick0).thrown = none ∧
    (reload opts env tick0).attempted = paths ∧
    ∀ p ∈ paths, loadFailsAllTokens opts env p →
      (∃ d ∈ (reload opts env tick0).warnings, Diagnostic.mentionsPath d p) ∧
      ∀ e ∈ (reload opts env tick0).plugins, e.2.pluginPath ≠ p := by
  refine ⟨by simp [reload, hmode, hscan], by simp [reload, hmode, hscan], ?_⟩
  intro p hp hfail
  constructor
  · have hw : (reload opts env tick0).warnings =
        (paths.foldl (loadSinglePlugin opts env) ⟨[], scanWarns, tick0, []⟩).warnings := by
      simp [reload, hmode, hscan]
    rw [hw]
    exact foldl_warn_of_fail opts env paths _ p hp hfail
  · intro e he hpath
    obtain ⟨p', _, tok, hp'⟩ := mem_reload_plugins he
    obtain ⟨_, hpath', _⟩ := loadEffect_good hp'
    rw [hpath] at hpath'
    rw [← hpath'] at hp'
    rw [loadEffect_none_of_fail hfail tok] at hp'
    cases hp'

/-- Witness for C2 on the concrete environment: plugin directory b (whose
manifest file is absent) is diagnosed and excluded while reload survives. -/
theorem C2_failure_isolation_witness :
    (reload cOpts cHostEnv 0).thrown = none ∧
    (reload cOpts cHostEnv 0).attempted = ["r/a", "r/b"] ∧
    ((∃ d ∈ (reload cOpts cHostEnv 0).warnings, Diagnostic.mentionsPath d ("r/b")) ∧
      ∀ e ∈ (reload cOpts cHostEnv 0).plugins, e.2.pluginPath ≠ "r/b") := by
  have h := C2_failure_isolation cOpts cHostEnv 0 ("r") ["r/a", "r/b"] [] rfl (by rfl)
  refine ⟨h.1, h.2.1, h.2.2 ("r/b") (by simp) ?_⟩
  show loadFailsAllTokens cOpts cHostEnv ("r/b")
  unfold loadFailsAllTokens
  simp only [show readManifest cHostEnv.fsEnv ("r/b") =
    .error ("Manifest file not found: r/b/plugin.manifest.json") from rfl]

/-- Claim C3: a host constructed in single-path mode never invokes the
scanner on reload(), attempts exactly one load at the configured path, and
its registry afterwards is the optional single entry of that load: at most
one entry, exactly one precisely when the load succeeds. -/
theorem C3_single_path_dispatch {T : Type} (opts : PluginHostOptions T) (env : HostEnv T)
    (tick0 : Nat) (p : String) (hmode : opts.mode = .single p) :
    (reload opts env tick0).usedScanner = false ∧
    (reload opts env tick0).attempted = [p] ∧
    (reload opts env tick0).plugins = (loadEffect opts env p (env.clock tick0)).toList ∧
    (reload opts env tick0).plugins.length ≤ 1 ∧
    ((reload opts env tick0).plugins.length = 1 ↔
      (loadEffect opts env p (env.clock tick0)).isSome) := by
  have hpl : (reload opts env tick0).plugins = (loadEffect opts env p (env.clock tick0)).toList := by
    simp only [reload, hmode]
    rw [loadSinglePlugin_plugins]
    cases he : loadEffect opts env p (env.clock tick0) with
    | none => simp
    | some kv => simp [mapSetPair, mapSet]
  refine ⟨by simp [reload, hmode], by simp [reload, hmode], hpl, ?_, ?_⟩
  · rw [hpl]
    cases loadEffect opts env p (env.clock tick0) <;> simp
  · rw [hpl]
    cases loadEffect opts env p (env.clock tick0) <;> simp

/-- Witness for C3 on the concrete environment: the single-path host over
plugin directory a loads exactly one entry and never scans, even though a
sibling plugin directory b exists next to it. -/
theorem C3_single_path_dispatch_witness :
    (reload cOptsSingle cHostEnv 0).usedScanner = false ∧
    (reload cOptsSingle cHostEnv 0).attempted = ["r/a"] ∧
    (reload cOptsSingle cHostEnv 0).plugins =
      (loadEffect cOptsSingle cHostEnv ("r/a") (cHostEnv.clock 0)).toList ∧
    (reload cOptsSingle cHostEnv 0).plugins.length ≤ 1 ∧
    ((reload cOptsSingle cHostEnv 0).plugins.length = 1 ↔
      (loadEffect cOptsSingle cHostEnv ("r/a") (cHostEnv.clock 0)).isSome) :=
  C3_single_path_dispatch cOptsSingle cHostEnv 0 ("r/a") rfl

theorem findAppend {α : Type} (p : α → Bool) (l₁ l₂ : List α) :
    (l₁ ++ l₂).find? p =
      match l₁.find? p with
      | some x => some x
      | none => l₂.find? p := by
  induction l₁ with
  | nil => simp
  | cons a l ih =>
    by_cases h : p a
    · simp [List.find?_cons_of_pos _ h]
    · simp [List.find?_cons_of_neg _ h, ih]

theorem mapGet_foldl_mapSetPair {α : Type} (S init : List (String × α)) (n : String) :
    mapGet (S.foldl mapSetPair init) n =
      match S.reverse.find? (fun kv => kv.1 = n) with
      | some kv => some kv.2
      | none => mapGet init n := by
  induction S generalizing init with
  | nil => simp
  | cons a S' ih =>
    rw [List.foldl_cons, ih, List.reverse_cons, findAppend]
    cases hf : S'.reverse.find? (fun kv => kv.1 = n) with
    | some kv => simp
    | none =>
      simp only [mapSetPair, mapGet_mapSet]
      by_cases ha : a.1 = n
      · simp [List.find?, ha]
      · simp [List.find?, ha]

theorem keys_nodup_mapSet {α : Type} (m : List (String × α)) (k : String) (v : α)
    (h : (m.map Prod.fst).Nodup) : ((mapSet m k v).map Prod.fst).Nodup := by
  rw [keys_mapSet]
  by_cases hs : (mapGet m k).isSome
  · simpa [hs] using h
  · have hk : k ∉ m.map Prod.fst := by
      refine (mapGet_eq_none_iff m k).mp ?_
      cases hg : mapGet m k with
      | none => rfl
      | some w => rw [hg] at hs; simp at hs
    simp only [hs, if_false]
    simp [List.nodup_append, h, hk]

theorem keys_toFinset_mapSet {α : Type} (m : List (String × α)) (k : String) (v : α) :
    ((mapSet m k v).map Prod.fst).toFinset = insert k (m.map Prod.fst).toFinset := by
  rw [keys_mapSet]
  by_cases hs : (mapGet m k).isSome
  · have hk : k ∈ m.map Prod.fst := by
      by_contra hk
      rw [← mapGet_eq_none_iff] at hk
      rw [hk] at hs
      simp at hs
    simp [hs, Finset.insert_eq_self.mpr (List.mem_toFinset.mpr hk)]
  · rw [if_neg hs, List.toFinset_append]
    simp [Finset.union_comm, Finset.insert_eq]

theorem keys_foldl_nodup {α : Type} (S init : List (String × α))
    (h : (init.map Prod.fst).Nodup) :
    ((S.foldl mapSetPair init).map Prod.fst).Nodup := by
  induction S generalizing init with
  | nil => exact h
  | cons a S' ih =>
    rw [List.foldl_cons]
    exact ih _ (keys_nodup_mapSet init a.1 a.2 h)

theorem keys_foldl_toFinset {α : Type} (S init : List (String × α)) :
    ((S.foldl mapSetPair init).map Prod.fst).toFinset =
      (init.map Prod.fst).toFinset ∪ (S.map Prod.fst).toFinset := by
  induction S generalizing init with
  | nil => simp
  | cons a S' ih =>
    rw [List.foldl_cons, ih]
    show _ ∪ _ = _ ∪ (a.1 :: S'.map Prod.fst).toFinset
    rw [List.toFinset_cons]
    have : ((mapSetPair init a).map Prod.fst).toFinset = insert a.1 (init.map Prod.fst).toFinset :=
      keys_toFinset_mapSet init a.1 a.2
    rw [this, Finset.insert_union, Finset.union_insert]

theorem length_foldl_mapSetPair {α : Type} (S : List (String × α)) :
    (S.foldl mapSetPair ([] : List (String × α))).length = (S.map Prod.fst).toFinset.card := by
  have hN := keys_foldl_nodup S [] (by simp)
  have hC := List.toFinset_card_of_nodup hN
  rw [keys_foldl_toFinset] at hC
  simp only [List.map_nil, List.toFinset_nil, Finset.empty_union, List.length_map] at hC
  exact hC.symm

/-- Claim C9: in folder mode, registration is last-writer-wins per manifest
name: after reload() the entry stored under any name is the one from the
latest successful load carrying that name in discovery order, and the
registry size is the number of distinct successful manifest names (not the
number of successful loads). -/
theorem C9_last_writer_wins {T : Type} (opts : PluginHostOptions T) (env : HostEnv T)
    (tick0 : Nat) (root : String) (paths : List String) (scanWarns : List Diagnostic)
    (hmode : opts.mode = .folder root)
    (hscan : scan env.scanEnv root = .ok (paths, scanWarns)) :
    (∀ n, mapGet (reload opts env tick0).plugins n =
      match (successes opts env paths tick0).reverse.find? (fun kv => kv.1 = n) with
      | some kv => some kv.2
      | none => none) ∧
    (reload opts env tick0).plugins.length =
      ((successes opts env paths tick0).map Prod.fst).toFinset.card := by
  have hpl : (reload opts env tick0).plugins =
      (successes opts env paths tick0).foldl mapSetPair [] := by
    simp only [reload, hmode, hscan]
    exact foldl_load_plugins opts env paths ⟨[], scanWarns, tick0, []⟩
  constructor
  · intro n
    rw [hpl, mapGet_foldl_mapSetPair]
    cases (successes opts env paths tick0).reverse.find? (fun kv => kv.1 = n) with
    | some kv => rfl
    | none => rfl
  · rw [hpl]
    exact length_foldl_mapSetPair _

/-- Witness for C9: with two discovered artifacts both named dup, the
registry holds exactly one entry under dup, namely the one loaded from the
later artifact b (manifest version 2), and its size is 1. -/
theorem C9_last_writer_wins_witness :
    mapGet (reload cOptsDup cDupEnv 0).plugins ("dup") =
      (match (successes cOptsDup cDupEnv ["r/a", "r/b"] 0).reverse.find?
        (fun kv => kv.1 = "dup") with
      | some kv => some kv.2
      | none => none) ∧
    (reload cOptsDup cDupEnv 0).plugins.length =
      ((successes cOptsDup cDupEnv ["r/a", "r/b"] 0).map Prod.fst).toFinset.card ∧
    mapGet (reload cOptsDup cDupEnv 0).plugins ("dup") =
      some ⟨⟨"dup", "2", "e.js", none⟩, "r/b", some 1⟩ ∧
    (reload cOptsDup cDupEnv 0).plugins.length = 1 := by
  have h := C9_last_writer_wins cOptsDup cDupEnv 0 ("r") ["r/a", "r/b"] [] rfl (by rfl)
  refine ⟨h.1 ("dup"), h.2, ?_, ?_⟩
  · rfl
  · rfl

theorem loadEffect_eq {T : Type} (opts : PluginHostOptions T) (env : HostEnv T)
    (p : String) (tok : Nat) (manifest : PluginManifest)
    (hm : readManifest env.fsEnv p = .ok manifest) :
    loadEffect opts env p tok =
      match env.importModule (joinPath p manifest.entryPoint) tok with
      | .fail _ => none
      | .ok m =>
        if validatorVerdict opts m then
          some (manifest.name, ⟨manifest, p, some (m.defaultExport.getD m.moduleValue)⟩)
        else none := by
  unfold loadEffect validatorVerdict
  simp only [hm]
  cases him : env.importModule (joinPath p manifest.entryPoint) tok with
  | fail msg => rfl
  | ok m =>
    cases hv : opts.validator with
    | none => simp
    | some v => by_cases hvc : v (m.defaultExport.getD m.moduleValue) <;> simp [hvc]

theorem successes_erase_stable {T : Type} (opts : PluginHostOptions T) (env : HostEnv T)
    (hstable : ImportStable opts env) (paths : List String) (t1 t2 : Nat) :
    eraseInst (successes opts env paths t1) = eraseInst (successes opts env paths t2) := by
  induction paths generalizing t1 t2 with
  | nil => rfl
  | cons p ps ih =>
    rw [successes, successes]
    cases hm : readManifest env.fsEnv p with
    | error msg => simpa only [hm] using ih t1 t2
    | ok manifest =>
      simp only [hm]
      unfold eraseInst
      rw [List.map_append, List.map_append]
      have hst := hstable (joinPath p manifest.entryPoint) (env.clock t1) (env.clock t2)
      have he1 := loadEffect_eq opts env p (env.clock t1) manifest hm
      have he2 := loadEffect_eq opts env p (env.clock t2) manifest hm
      have htail := ih (t1 + 1) (t2 + 1)
      unfold eraseInst at htail
      rw [htail]
      congr 1
      cases him1 : env.importModule (joinPath p manifest.entryPoint) (env.clock t1) with
      | fail msg1 =>
        cases him2 : env.importModule (joinPath p manifest.entryPoint) (env.clock t2) with
        | fail msg2 => rw [he1, he2]; simp [him1, him2]
        | ok m2 => rw [him1, him2] at hst; simp at hst
      | ok m1 =>
        cases him2 : env.importModule (joinPath p manifest.entryPoint) (env.clock t2) with
        | fail msg2 => rw [him1, him2] at hst; simp at hst
        | ok m2 =>
          rw [him1, him2] at hst
          simp only at hst
          rw [he1, he2]
          simp only [him1, him2]
          by_cases hvv : validatorVerdict opts m1
          · rw [if_pos hvv, if_pos (hst ▸ hvv)]
            simp
          · rw [if_neg hvv, if_neg (fun h => hvv (hst ▸ h))]

theorem eraseInst_mapSet_congr {T : Type} {init1 init2 : Registry T} {k : String}
    {w1 w2 : PluginWrapper T}
    (hinit : eraseInst init1 = eraseInst init2)
    (hman : w1.manifest = w2.manifest) (hpath : w1.pluginPath = w2.pluginPath) :
    eraseInst (mapSet init1 k w1) = eraseInst (mapSet init2 k w2) := by
  induction init1 generalizing init2 with
  | nil =>
    cases init2 with
    | nil => simp [mapSet, eraseInst, hman, hpath]
    | cons b r2 => simp [eraseInst] at hinit
  | cons a r1 ih =>
    cases init2 with
    | nil => simp [eraseInst] at hinit
    | cons b r2 =>
      simp only [eraseInst, List.map_cons, List.cons.injEq] at hinit
      obtain ⟨hhead, htail⟩ := hinit
      obtain ⟨h1, h2, h3⟩ : a.1 = b.1 ∧ a.2.manifest = b.2.manifest ∧
          a.2.pluginPath = b.2.pluginPath := by
        refine ⟨congrArg (fun q : String × PluginManifest × String => q.1) hhead, ?_, ?_⟩
        · exact congrArg (fun q : String × PluginManifest × String => q.2.1) hhead
        · exact congrArg (fun q : String × PluginManifest × String => q.2.2) hhead
      obtain ⟨ka, wa⟩ := a
      obtain ⟨kb, wb⟩ := b
      simp only at h1 h2 h3
      subst h1
      by_cases hak : ka = k
      · subst hak
        simp [mapSet, eraseInst, hman, hpath, htail]
      · simp only [mapSet, if_neg hak, eraseInst, List.map_cons]
        have := ih htail
        unfold eraseInst at this
        rw [this]
        simp [h2, h3]

theorem eraseInst_foldl_congr {T : Type} {S1 S2 init1 init2 : Registry T}
    (hS : eraseInst S1 = eraseInst S2) (hinit : eraseInst init1 = eraseInst init2) :
    eraseInst (S1.foldl mapSetPair init1) = eraseInst (S2.foldl mapSetPair init2) := by
  induction S1 generalizing S2 init1 init2 with
  | nil =>
    cases S2 with
    | nil => exact hinit
    | cons b S2' => simp [eraseInst] at hS
  | cons a S1' ih =>
    cases S2 with
    | nil => simp [eraseInst] at hS
    | cons b S2' =>
      simp only [eraseInst, List.map_cons, List.cons.injEq] at hS
      obtain ⟨hhead, htail⟩ := hS
      obtain ⟨h1, h2, h3⟩ : a.1 = b.1 ∧ a.2.manifest = b.2.manifest ∧
          a.2.pluginPath = b.2.pluginPath := by
        refine ⟨congrArg (fun q : String × PluginManifest × String => q.1) hhead, ?_, ?_⟩
        · exact congrArg (fun q : String × PluginManifest × String => q.2.1) hhead
        · exact congrArg (fun q : String × PluginManifest × String => q.2.2) hhead
      rw [List.foldl_cons, List.foldl_cons]
      refine ih htail ?_
      simp only [mapSetPair, h1]
      exact eraseInst_mapSet_congr hinit h2 h3

theorem keys_of_eraseInst {T : Type} {r1 r2 : Registry T}
    (h : eraseInst r1 = eraseInst r2) : r1.map Prod.fst = r2.map Prod.fst := by
  have h2 := congrArg (List.map Prod.fst) h
  simpa [eraseInst, List.map_map, Function.comp_def] using h2

theorem mapGet_manifest_of_eraseInst {T : Type} {r1 r2 : Registry T}
    (h : eraseInst r1 = eraseInst r2) (n : String) :
    (mapGet r1 n).map PluginWrapper.manifest = (mapGet r2 n).map PluginWrapper.manifest := by
  induction r1 generalizing r2 with
  | nil =>
    cases r2 with
    | nil => rfl
    | cons b r2' => simp [eraseInst] at h
  | cons a r1' ih =>
    cases r2 with
    | nil => simp [eraseInst] at h
    | cons b r2' =>
      simp only [eraseInst, List.map_cons, List.cons.injEq] at h
      obtain ⟨hhead, htail⟩ := h
      obtain ⟨h1, h2, _⟩ : a.1 = b.1 ∧ a.2.manifest = b.2.manifest ∧
          a.2.pluginPath = b.2.pluginPath := by
        refine ⟨congrArg (fun q : String × PluginManifest × String => q.1) hhead, ?_, ?_⟩
        · exact congrArg (fun q : String × PluginManifest × String => q.2.1) hhead
        · exact congrArg (fun q : String × PluginManifest × String => q.2.2) hhead
      obtain ⟨ka, wa⟩ := a
      obtain ⟨kb, wb⟩ := b
      simp only at h1 h2
      subst h1
      by_cases hak : ka = n
      · simp [mapGet, hak, h2]
      · simp only [mapGet, if_neg hak]
        exact ih htail

theorem reload_attempted_const {T : Type} (opts : PluginHostOptions T) (env : HostEnv T)
    (t1 t2 : Nat) : (reload opts env t1).attempted = (reload opts env t2).attempted := by
  cases hmode : opts.mode with
  | folder root =>
    cases hscan : scan env.scanEnv root with
    | error e => simp [reload, hmode, hscan]
    | ok pr => simp [reload, hmode, hscan]
  | single p => simp [reload, hmode]

theorem reload_plugins_eq {T : Type} (opts : PluginHostOptions T) (env : HostEnv T)
    (t0 : Nat) :
    (reload opts env t0).plugins =
      (successes opts env (reload opts env t0).attempted t0).foldl mapSetPair [] := by
  cases hmode : opts.mode with
  | folder root =>
    cases hscan : scan env.scanEnv root with
    | error e => simp [reload, hmode, hscan, successes]
    | ok pr =>
      obtain ⟨paths, w⟩ := pr
      simp only [reload, hmode, hscan]
      exact foldl_load_plugins opts env paths ⟨[], w, t0, []⟩
  | single p =>
    simp only [reload, hmode]
    rw [loadSinglePlugin_plugins]
    rw [successes]
    cases hm : readManifest env.fsEnv p with
    | error msg =>
      simp only [hm]
      have : loadEffect opts env p (env.clock t0) = none := by
        unfold loadEffect
        simp [hm]
      rw [this]
      simp [successes]
    | ok manifest =>
      simp only [hm]
      cases he : loadEffect opts env p (env.clock t0) with
      | none => simp [successes]
      | some kv => simp [successes, mapSetPair]

theorem reload_erase_stable {T : Type} (opts : PluginHostOptions T) (env : HostEnv T)
    (hstable : ImportStable opts env) (t1 t2 : Nat) :
    eraseInst (reload opts env t1).plugins = eraseInst (reload opts env t2).plugins := by
  rw [reload_plugins_eq opts env t1, reload_plugins_eq opts env t2,
    reload_attempted_const opts env t1 t2]
  exact eraseInst_foldl_congr
    (successes_erase_stable opts env hstable (reload opts env t2).attempted t1 t2) rfl

/-- Claim C8: two successive reload() calls over an unchanged filesystem
(imports succeed or fail alike under any token, and the validator's
verdict does not depend on the token) yield registries with identical key
sequences and, under every name, identical manifests; only the live
instances may differ. -/
theorem C8_reload_idempotent {T : Type} (opts : PluginHostOptions T) (env : HostEnv T)
    (tick0 : Nat) (hstable : ImportStable opts env) :
    ((reload opts env tick0).plugins.map Prod.fst =
      (reload opts env (reload opts env tick0).tick).plugins.map Prod.fst) ∧
    ∀ n, (mapGet (reload opts env tick0).plugins n).map PluginWrapper.manifest =
      (mapGet (reload opts env (reload opts env tick0).tick).plugins n).map
        PluginWrapper.manifest := by
  have h := reload_erase_stable opts env hstable tick0 (reload opts env tick0).tick
  exact ⟨keys_of_eraseInst h, mapGet_manifest_of_eraseInst h⟩

/-- Witness for C8 on the concrete environment: the two successive reloads
agree on keys and on the manifest stored under a. -/
theorem C8_reload_idempotent_witness :
    ((reload cOpts cHostEnv 0).plugins.map Prod.fst =
      (reload cOpts cHostEnv (reload cOpts cHostEnv 0).tick).plugins.map Prod.fst) ∧
    ((mapGet (reload cOpts cHostEnv 0).plugins ("a")).map PluginWrapper.manifest =
      (mapGet (reload cOpts cHostEnv (reload cOpts cHostEnv 0).tick).plugins ("a")).map
        PluginWrapper.manifest) := by
  have h := C8_reload_idempotent cOpts cHostEnv 0 (fun p t t' => rfl)
  exact ⟨h.1, h.2 ("a")⟩

theorem foldl_load_tokens {T : Type} (opts : PluginHostOptions T) (env : HostEnv T)
    (paths : List String) (st : LoadState T) :
    ∃ n, (paths.foldl (loadSinglePlugin opts env) st).tick = st.tick + n ∧
      (paths.foldl (loadSinglePlugin opts env) st).importCalls.map Prod.snd =
        st.importCalls.map Prod.snd ++ (List.range' st.tick n).map env.clock := by
  induction paths generalizing st with
  | nil => exact ⟨0, by simp⟩
  | cons p ps ih =>
    rw [List.foldl_cons]
    obtain ⟨n, hn, hc⟩ := ih (loadSinglePlugin opts env st p)
    have ht := loadSinglePlugin_tick opts env st p
    have hic := loadSinglePlugin_importCalls opts env st p
    cases hm : readManifest env.fsEnv p with
    | error msg =>
      have hd : loadCallsDelta env p st.tick = [] := by
        unfold loadCallsDelta
        simp [hm]
      rw [hd] at ht hic
      simp only [List.length_nil, Nat.add_zero, List.append_nil] at ht hic
      refine ⟨n, ?_, ?_⟩
      · rw [hn, ht]
      · rw [hc, hic, ht]
    | ok manifest =>
      have hd : loadCallsDelta env p st.tick =
          [(joinPath p manifest.entryPoint, env.clock st.tick)] := by
        unfold loadCallsDelta
        simp [hm]
      rw [hd] at ht hic
      simp only [List.length_cons, List.length_nil, Nat.zero_add] at ht
      refine ⟨n + 1, ?_, ?_⟩
      · rw [hn, ht, Nat.add_assoc, Nat.add_comm 1 n]
      · rw [hc, hic, ht, List.map_append]
        have hr : List.range' st.tick (n + 1) = st.tick :: List.range' (st.tick + 1) n :=
          List.range'_succ st.tick n 1
        rw [hr]
        simp

theorem reload_tokens {T : Type} (opts : PluginHostOptions T) (env : HostEnv T) (t0 : Nat) :
    ∃ n, (reload opts env t0).tick = t0 + n ∧
      (reload opts env t0).importCalls.map Prod.snd = (List.range' t0 n).map env.clock := by
  cases hmode : opts.mode with
  | folder root =>
    cases hscan : scan env.scanEnv root with
    | error e => exact ⟨0, by simp [reload, hmode, hscan], by simp [reload, hmode, hscan]⟩
    | ok pr =>
      obtain ⟨paths, w⟩ := pr
      simp only [reload, hmode, hscan]
      obtain ⟨n, hn, hc⟩ := foldl_load_tokens opts env paths ⟨[], w, t0, []⟩
      refine ⟨n, hn, ?_⟩
      simpa using hc
  | single p =>
    simp only [reload, hmode]
    obtain ⟨n, hn, hc⟩ := foldl_load_tokens opts env [p] ⟨[], [], t0, []⟩
    rw [List.foldl_cons, List.foldl_nil] at hn hc
    refine ⟨n, hn, ?_⟩
    simpa using hc

/-- Claim C5 (amended): every dynamic import carries the Date.now() reading
taken at its load as cache-busting token; across two successive reload()
calls these tokens are the clock readings of consecutive process ticks,
and they are pairwise distinct provided the process clock strictly
increases between readings (no two Date.now() calls share a millisecond) —
which Date.now() itself does not guarantee. -/
theorem C5_tokens_distinct_of_strictMono {T : Type} (opts : PluginHostOptions T)
    (env : HostEnv T) (t0 : Nat) (hclock : StrictMono env.clock) :
    (((reload opts env t0).importCalls ++
      (reload opts env (reload opts env t0).tick).importCalls).map Prod.snd).Pairwise
      (fun a b => a ≠ b) := by
  obtain ⟨n1, hn1, hc1⟩ := reload_tokens opts env t0
  obtain ⟨n2, hn2, hc2⟩ := reload_tokens opts env (reload opts env t0).tick
  rw [List.map_append, hc1, hc2, hn1, ← List.map_append, List.range'_append_1]
  exact (List.nodup_range' t0 (n2 + n1)).map hclock.injective

/-- Witness for the amended C5: with the identity clock (strictly advancing
milliseconds) the tokens of two successive single-path reloads are
pairwise distinct. -/
theorem C5_tokens_distinct_witness :
    (((reload cOptsSingle cHostEnv 0).importCalls ++
      (reload cOptsSingle cHostEnv (reload cOptsSingle cHostEnv 0).tick).importCalls).map
      Prod.snd).Pairwise (fun a b => a ≠ b) :=
  C5_tokens_distinct_of_strictMono cOptsSingle cHostEnv 0 (fun _ _ h => h)

/-- Counterexample to C5 as stated: under a clock frozen within one
millisecond (legal for the non-decreasing Date.now()), two successive
single-path reload() calls attach the identical token 5 to both dynamic
imports, so the tokens attached to the loads are not pairwise distinct and
the second import request is indistinguishable from the first. -/
theorem C5_counterexample :
    (reload cOptsSingle cFrozenEnv 0).importCalls = [("r/a/e.js", 5)] ∧
    (reload cOptsSingle cFrozenEnv
      (reload cOptsSingle cFrozenEnv 0).tick).importCalls = [("r/a/e.js", 5)] ∧
    ((reload cOptsSingle cFrozenEnv 0).importCalls ++
      (reload cOptsSingle cFrozenEnv (reload cOptsSingle cFrozenEnv 0).tick).importCalls).map
      Prod.snd = [5, 5] :=
  ⟨rfl, rfl, rfl⟩

/-- Claim C6: scan() and each of its sub-scans fail with the newly
constructed "Plugin directory not found" error exactly when reading the
root directory fails with ENOENT, and any other readdir failure
propagates unchanged as the original error object.  (The recursive mkdir
of the cache directory is assumed, per its contract over a fixed
non-empty path, never to fail with ENOENT.) -/
theorem C6_scanner_fatal_semantics (env : ScanEnv) (rootPath : String)
    (hmk : ∀ e, env.mkdirResult (cacheDir env) = some e → ¬ e.code = some ("ENOENT")) :
    ((scanDirectories env rootPath =
        .error (.rootNotFound ("Plugin directory not found: " ++ rootPath))) ↔
      (∃ e, env.readdir rootPath = .fail e ∧ e.code = some ("ENOENT"))) ∧
    ((scanZipFiles env rootPath =
        .error (.rootNotFound ("Plugin directory not found: " ++ rootPath))) ↔
      (∃ e, env.readdir rootPath = .fail e ∧ e.code = some ("ENOENT"))) ∧
    ((scan env rootPath =
        .error (.rootNotFound ("Plugin directory not found: " ++ rootPath))) ↔
      (∃ e, env.readdir rootPath = .fail e ∧ e.code = some ("ENOENT"))) ∧
    (∀ e, env.readdir rootPath = .fail e → ¬ e.code = some ("ENOENT") →
      scanDirectories env rootPath = .error (.raised e) ∧
      scanZipFiles env rootPath = .error (.raised e) ∧
      scan env rootPath = .error (.raised e)) := by
  cases hr : env.readdir rootPath with
  | fail e =>
    by_cases hc : e.code = some ("ENOENT")
    · have hd : scanDirectories env rootPath =
          .error (.rootNotFound ("Plugin directory not found: " ++ rootPath)) := by
        simp [scanDirectories, hr, hc]
      have hz : scanZipFiles env rootPath =
          .error (.rootNotFound ("Plugin directory not found: " ++ rootPath)) := by
        simp [scanZipFiles, hr, hc]
      have hs : scan env rootPath =
          .error (.rootNotFound ("Plugin directory not found: " ++ rootPath)) := by
        simp [scan, hd, hz]
      refine ⟨iff_of_true hd ⟨e, rfl, hc⟩, iff_of_true hz ⟨e, rfl, hc⟩,
        iff_of_true hs ⟨e, rfl, hc⟩, ?_⟩
      intro e' he' hc'
      injection he' with h2
      subst h2
      exact absurd hc hc'
    · have hd : scanDirectories env rootPath = .error (.raised e) := by
        simp [scanDirectories, hr, hc]
      have hz : scanZipFiles env rootPath = .error (.raised e) := by
        simp [scanZipFiles, hr, hc]
      have hs : scan env rootPath = .error (.raised e) := by
        simp [scan, hd, hz]
      have hrhs : ¬ ∃ e', DirResult.fail e = DirResult.fail e' ∧ e'.code = some ("ENOENT") := by
        rintro ⟨e', he', hc'⟩
        injection he' with h2
        subst h2
        exact hc hc'
      refine ⟨iff_of_false (by rw [hd]; simp) hrhs, iff_of_false (by rw [hz]; simp) hrhs,
        iff_of_false (by rw [hs]; simp) hrhs, ?_⟩
      intro e' he' hc'
      injection he' with h2
      subst h2
      exact ⟨hd, hz, hs⟩
  | ok entries =>
    have hrhs : ¬ ∃ e', DirResult.ok entries = DirResult.fail e' ∧ e'.code = some ("ENOENT") := by
      rintro ⟨e', he', hc'⟩
      exact absurd he' (by simp)
    have hdno : ¬ scanDirectories env rootPath =
        .error (.rootNotFound ("Plugin directory not found: " ++ rootPath)) := by
      intro hcon
      simp [scanDirectories, hr] at hcon
    have hzno : ¬ scanZipFiles env rootPath =
        .error (.rootNotFound ("Plugin directory not found: " ++ rootPath)) := by
      intro hcon
      cases hm : env.mkdirResult (cacheDir env) with
      | none => simp [scanZipFiles, hr, hm] at hcon
      | some e' => simp [scanZipFiles, hr, hm, hmk e' hm] at hcon
    have hsno : ¬ scan env rootPath =
        .error (.rootNotFound ("Plugin directory not found: " ++ rootPath)) := by
      intro hcon
      cases hm : env.mkdirResult (cacheDir env) with
      | none => simp [scan, scanZipFiles, scanDirectories, hr, hm] at hcon
      | some e' => simp [scan, scanZipFiles, scanDirectories, hr, hm, hmk e' hm] at hcon
    refine ⟨iff_of_false hdno hrhs, iff_of_false hzno hrhs, iff_of_false hsno hrhs, ?_⟩
    intro e' he' hc'
    exact absurd he' (by simp)

/-- Witness for C6 on the concrete environment: scanning the missing root
x fails with the Plugin-directory-not-found error on all three scan
entry points. -/
theorem C6_scanner_fatal_semantics_witness :
    scanDirectories cScanEnv ("x") =
      .error (.rootNotFound ("Plugin directory not found: x")) ∧
    scanZipFiles cScanEnv ("x") =
      .error (.rootNotFound ("Plugin directory not found: x")) ∧
    scan cScanEnv ("x") =
      .error (.rootNotFound ("Plugin directory not found: x")) := by
  have h := C6_scanner_fatal_semantics cScanEnv ("x")
    (fun e he => by cases he)
  exact ⟨h.1.mpr ⟨⟨some ("ENOENT"), "ENOENT"⟩, rfl, rfl⟩,
    h.2.1.mpr ⟨⟨some ("ENOENT"), "ENOENT"⟩, rfl, rfl⟩,
    h.2.2.1.mpr ⟨⟨some ("ENOENT"), "ENOENT"⟩, rfl, rfl⟩⟩

theorem scanZip_fold_sound (env : ScanEnv) (rootPath : String) (entries : List DirEntry)
    (acc : List String × List Diagnostic) :
    ∀ p ∈ (entries.foldl (fun acc entry =>
      if entry.isFile && jsEndsWith entry.name (".zip") then
        let zipPath := joinPath rootPath entry.name
        let r := extractZip env zipPath entry.name
        match r.1 with
        | some q => (acc.1 ++ [q], acc.2 ++ r.2)
        | none => (acc.1, acc.2 ++ r.2)
      else acc) acc).1,
      p ∈ acc.1 ∨ ∃ name, (extractZip env (joinPath rootPath name) name).1 = some p := by
  induction entries generalizing acc with
  | nil => exact fun p hp => Or.inl hp
  | cons ent rest ih =>
    intro p hp
    rw [List.foldl_cons] at hp
    by_cases hf : ent.isFile && jsEndsWith ent.name (".zip")
    · simp only [if_pos hf] at hp
      cases hz : (extractZip env (joinPath rootPath ent.name) ent.name).1 with
      | some q =>
        simp only [hz] at hp
        rcases ih _ p hp with h' | h'
        · rcases List.mem_append.mp h' with h2 | h2
          · exact Or.inl h2
          · exact Or.inr ⟨ent.name, by rw [hz, List.mem_singleton.mp h2]⟩
        · exact h'.elim (fun name hn => Or.inr ⟨name, hn⟩)
      | none =>
        simp only [hz] at hp
        rcases ih _ p hp with h' | h'
        · exact Or.inl h'
        · exact h'.elim (fun name hn => Or.inr ⟨name, hn⟩)
    · simp only [if_neg hf] at hp
      exact ih _ p hp

/-- Claim C7: archive extraction never aborts a scan: a throwing extraction
yields null plus a warning naming the archive; an extracted archive whose
root lacks a manifest yields null with no warning; whenever readdir and
the cache mkdir succeed the zip scan completes without error and every
returned path stems from a successful extraction; and every registry entry
originates from an attempted path, so a failed archive contributes zero
registry entries. -/
theorem C7_extraction_never_aborts (env : ScanEnv) (rootPath : String) :
    (∀ zipPath zipName msg, env.zipExtract zipPath = .threw msg →
      extractZip env zipPath zipName = (none, [Diagnostic.extractFailed zipName msg])) ∧
    (∀ zipPath zipName, env.zipExtract zipPath = .extracted →
      env.accessOk (joinPath (joinPath (cacheDir env) (jsReplaceFirst zipName (".zip") ""))
        manifestFileName) = false →
      extractZip env zipPath zipName = (none, [])) ∧
    (∀ entries, env.readdir rootPath = .ok entries →
      env.mkdirResult (cacheDir env) = none →
      ∃ pr, scanZipFiles env rootPath = .ok pr ∧
        ∀ p ∈ pr.1, ∃ name, (extractZip env (joinPath rootPath name) name).1 = some p) ∧
    (∀ (T : Type) (opts : PluginHostOptions T) (henv : HostEnv T) (t0 : Nat)
      (e : String × PluginWrapper T), e ∈ (reload opts henv t0).plugins →
      e.2.pluginPath ∈ (reload opts henv t0).attempted) := by
  refine ⟨?_, ?_, ?_, ?_⟩
  · intro zipPath zipName msg hthrew
    simp [extractZip, hthrew]
  · intro zipPath zipName hext hacc
    simp [extractZip, hext, hacc]
  · intro entries hr hm
    have hsz : scanZipFiles env rootPath = .ok (entries.foldl (fun acc entry =>
        if entry.isFile && jsEndsWith entry.name (".zip") then
          let zipPath := joinPath rootPath entry.name
          let r := extractZip env zipPath entry.name
          match r.1 with
          | some p => (acc.1 ++ [p], acc.2 ++ r.2)
          | none => (acc.1, acc.2 ++ r.2)
        else acc) ([], [])) := by
      simp only [scanZipFiles, hr, hm]
    refine ⟨_, hsz, ?_⟩
    intro p hp
    rcases scanZip_fold_sound env rootPath entries ([], []) p hp with h' | h'
    · cases h'
    · exact h'
  · intro T opts henv t0 e he
    obtain ⟨p, hpmem, tok, hp⟩ := mem_reload_plugins he
    obtain ⟨_, hpath, _⟩ := loadEffect_good hp
    rw [hpath]
    exact hpmem

/-- Witness for C7 on the archive environment: the corrupt archive is
warned about and excluded, the manifest-less archive is silently excluded,
the zip scan completes, and a loaded entry's path is among the attempted
paths. -/
theorem C7_extraction_never_aborts_witness :
    extractZip cZipScanEnv ("z/bad.zip") ("bad.zip") =
      (none, [Diagnostic.extractFailed ("bad.zip") ("corrupt")]) ∧
    extractZip cZipScanEnv ("z/noman.zip") ("noman.zip") = (none, []) ∧
    (∃ pr, scanZipFiles cZipScanEnv ("z") = .ok pr ∧
      ∀ p ∈ pr.1, ∃ name, (extractZip cZipScanEnv (joinPath ("z") name) name).1 = some p) ∧
    cEntry.2.pluginPath ∈ (reload cOpts cHostEnv 0).attempted := by
  have h := C7_extraction_never_aborts cZipScanEnv ("z")
  refine ⟨h.1 ("z/bad.zip") ("bad.zip") ("corrupt") rfl, h.2.1 ("z/noman.zip") ("noman.zip") rfl rfl,
    h.2.2.1 [⟨"bad.zip", false, true⟩, ⟨"noman.zip", false, true⟩] rfl rfl, ?_⟩
  refine (C7_extraction_never_aborts cZipScanEnv ("z")).2.2.2 Nat cOpts cHostEnv 0 cEntry ?_
  have hpl : (reload cOpts cHostEnv 0).plugins = [cEntry] := by rfl
  rw [hpl]
  exact List.mem_singleton.mpr rfl

/-- Counterexample to C4 as stated: a manifest whose meta field is an
array is accepted by readManifest (JavaScript typeof gives object for an
array), not rejected as the claim requires. -/
theorem C4_counterexample :
    readManifest cMetaFsEnv ("pa") = .ok ⟨"a", "1", "e.js", some (Json.arr [])⟩ ∧
    (readManifest cMetaFsEnv ("pa")).isOk = true :=
  ⟨rfl, rfl⟩

/-- Claim C4 (amended): for an input object whose name, version and
entryPoint fields are valid, readManifest rejects a present meta field
exactly when its JavaScript typeof is not object — that is, when meta is
a string, number or boolean scalar — and accepts meta that is absent, an
object, an array, or null (arrays and null pass because typeof yields
object for them). -/
theorem C4_meta_validation (env : ManifestEnv) (p content : String)
    (fields : List (String × Json))
    (hread : env.readFile (joinPath p manifestFileName) = .ok content)
    (hparse : env.jsonParse content = .ok (Json.obj fields))
    (n v ep : String)
    (hn : getField (Json.obj fields) ("name") = some (Json.str n)) (hn' : ¬ jsTrim n = "")
    (hv : getField (Json.obj fields) ("version") = some (Json.str v)) (hv' : ¬ jsTrim v = "")
    (he : getField (Json.obj fields) ("entryPoint") = some (Json.str ep))
    (he' : ¬ jsTrim ep = "") :
    (getField (Json.obj fields) ("meta") = none →
      readManifest env p = .ok ⟨n, v, ep, none⟩) ∧
    (∀ mv, getField (Json.obj fields) ("meta") = some mv →
      (jsTypeof mv = "object" → readManifest env p = .ok ⟨n, v, ep, some mv⟩) ∧
      (¬ jsTypeof mv = "object" →
        readManifest env p = .error ("Manifest meta field must be an object if provided"))) := by
  have hrm : readManifest env p = validateManifest (Json.obj fields) := by
    unfold readManifest
    simp [hread, hparse]
  rw [hrm]
  unfold validateManifest
  simp only [jsTypeof, isJsNull, fieldNonEmptyString, hn, hv, he, if_neg hn', if_neg hv',
    if_neg he']
  constructor
  · intro hmeta
    simp [hmeta]
  · intro mv hmeta
    constructor
    · intro hty
      simp [hmeta, hty]
    · intro hty
      simp [hmeta, hty]

/-- Witness for the amended C4: a string-scalar meta is rejected while an
object meta, a null meta and an absent meta are accepted. -/
theorem C4_meta_validation_witness :
    readManifest cMetaFsEnv ("pb") =
      .error ("Manifest meta field must be an object if provided") ∧
    readManifest cMetaFsEnv ("pc") = .ok ⟨"a", "1", "e.js", some (Json.obj [])⟩ ∧
    readManifest cMetaFsEnv ("pd") = .ok ⟨"a", "1", "e.js", some Json.null⟩ ∧
    readManifest cFsEnv ("r/a") = .ok ⟨"a", "1", "e.js", none⟩ := by
  refine ⟨?_, ?_, ?_, ?_⟩
  · exact ((C4_meta_validation cMetaFsEnv ("pb") ("MB") _ rfl rfl "a" "1" "e.js" rfl
      (by decide) rfl (by decide) rfl (by decide)).2 (Json.str ("scalar")) rfl).2 (by decide)
  · exact ((C4_meta_validation cMetaFsEnv ("pc") ("MC") _ rfl rfl "a" "1" "e.js" rfl
      (by decide) rfl (by decide) rfl (by decide)).2 (Json.obj []) rfl).1 rfl
  · exact ((C4_meta_validation cMetaFsEnv ("pd") ("MD") _ rfl rfl "a" "1" "e.js" rfl
      (by decide) rfl (by decide) rfl (by decide)).2 Json.null rfl).1 rfl
  · exact (C4_meta_validation cFsEnv ("r/a") ("A") _ rfl rfl "a" "1" "e.js" rfl
      (by decide) rfl (by decide) rfl (by decide)).1 rfl

end Augment
